import Mathlib

/-!
Verification of the drone-core heap allocator (src/heap/pool.rs and
src/heap/allocator.rs), modelled for single-context sequential execution.
Pools are records over Nat addresses; the intrusive free list is modelled
as the list of free block addresses; the usize counter arithmetic of the
remain field keeps its wrap-around semantics explicitly.
-/

/-- Modulus of the usize machine word. The crate primarily targets 32-bit
platforms; the theorems below only require that pool capacities stay below
this bound, so they hold for any larger word width as well. -/
def USIZE : Nat := 2 ^ 32

/-- Wrapping decrement: the effect of AtomicUsize.fetch_sub(1, ...) on the
stored value. -/
def usub1 (n : Nat) : Nat := (n + (USIZE - 1)) % USIZE

/-- Wrapping increment: the effect of AtomicUsize.fetch_add(1, ...) on the
stored value. -/
def uadd1 (n : Nat) : Nat := (n + 1) % USIZE

/-- Statistics snapshot of a pool, from pool.rs. -/
structure Statistics where
  block_size : Nat
  capacity : Nat
  remain : Nat
deriving DecidableEq, Inhabited

/-- A single size-class arena, from pool.rs. The atomic fields free (head of
the intrusive free list) and uninit (bump cursor) are modelled as the list of
free block addresses and the cursor address; remain is the diagnostic
counter. -/
structure Pool where
  capacity : Nat
  remain : Nat
  block_size : Nat
  edge : Nat
  free : List Nat
  uninit : Nat
deriving DecidableEq, Inhabited

/-- Pool constructor, from Pool::new in pool.rs. -/
def Pool.new (address block_size capacity : Nat) : Pool :=
  { capacity := capacity
    remain := capacity
    block_size := block_size
    edge := address + block_size * capacity
    free := []
    uninit := address }

/-- Statistics snapshot, from Pool::statistics in pool.rs. -/
def Pool.statistics (p : Pool) : Statistics :=
  { block_size := p.block_size, capacity := p.capacity, remain := p.remain }

/-- Pop of the free-list head, from Pool::alloc_free in pool.rs (the CAS
retry loop collapses to the single successful exchange in sequential
execution). -/
def Pool.alloc_free (p : Pool) : Option Nat × Pool :=
  match p.free with
  | [] => (none, p)
  | curr :: next => (some curr, { p with free := next, remain := usub1 p.remain })

/-- Advance of the bump cursor by one block, from Pool::alloc_uninit in
pool.rs; it stops exactly when the cursor equals the edge. -/
def Pool.alloc_uninit (p : Pool) : Option Nat × Pool :=
  if p.uninit = p.edge then (none, p)
  else (some p.uninit, { p with uninit := p.uninit + p.block_size, remain := usub1 p.remain })

/-- One block allocation, from Pool::allocate in pool.rs:
alloc_free().or_else(|| alloc_uninit()). -/
def Pool.allocate (p : Pool) : Option Nat × Pool :=
  match p.alloc_free with
  | (some a, q) => (some a, q)
  | (none, q) => q.alloc_uninit

/-- Push of a block onto the free list, from Pool::deallocate in pool.rs
(Treiber-stack push; the link word written into the freed block is the
previous head, so the list model keeps the pushed address at the head). -/
def Pool.deallocate (p : Pool) (ptr : Nat) : Pool :=
  { p with free := ptr :: p.free, remain := uadd1 p.remain }

/-- A (size, alignment) request descriptor, from core::alloc::Layout as used
by allocator.rs. The dangling pointer of a layout is its alignment. -/
structure Layout where
  size : Nat
  align : Nat
deriving DecidableEq, Inhabited

/-- Size probe, from the Fits impl for Layout references in pool.rs:
self.size() <= pool.block_size. -/
def fitsSize (l : Layout) (p : Pool) : Bool := decide (l.size ≤ p.block_size)

/-- Address probe, from the Fits impl for NonNull pointers in pool.rs:
self.as_ptr() < pool.edge. -/
def fitsAddr (a : Nat) (p : Pool) : Bool := decide (a < p.edge)

/-- Loop body of binary_search in allocator.rs. The while loop is expressed
with an explicit iteration budget; each pass shrinks the interval width by at
least one, and the fuel-irrelevance theorems below show any budget of at
least the initial width gives the fixed point of the loop. Out-of-range pool
access is undefined behavior in the source (get_pool_unchecked); it is
modelled by the default pool and shown unreachable. -/
def bsearchAux (pools : List Pool) (fits : Pool → Bool) : Nat → Nat → Nat → Nat
  | 0, left, _ => left
  | fuel + 1, left, right =>
    if right > left then
      let middle := left + (right - left) / 2
      if fits (pools.getD middle default) then bsearchAux pools fits fuel left middle
      else bsearchAux pools fits fuel (middle + 1) right
    else left

/-- Binary search for the first pool satisfying the probe, from binary_search
in allocator.rs: left and right start at 0 and N. -/
def binary_search (pools : List Pool) (fits : Pool → Bool) : Nat :=
  bsearchAux pools fits pools.length 0 pools.length

/-- Indices passed to get_pool_unchecked during the binary_search loop, in
order. -/
def bsearchAccesses (pools : List Pool) (fits : Pool → Bool) : Nat → Nat → Nat → List Nat
  | 0, _, _ => []
  | fuel + 1, left, right =>
    if right > left then
      let middle := left + (right - left) / 2
      middle ::
        (if fits (pools.getD middle default) then bsearchAccesses pools fits fuel left middle
         else bsearchAccesses pools fits fuel (middle + 1) right)
    else []

/-- Calls into the trace module of allocator.rs, one constructor per
operation, carrying the layout sizes the call receives. The port-level
is_enabled gating and the packed word encoding are external I/O and outside
the model. -/
inductive TraceEvent where
  | allocate (size : Nat)
  | deallocate (size : Nat)
  | grow (old_size new_size : Nat)
  | shrink (old_size new_size : Nat)
deriving DecidableEq

/-- Discriminator for deallocation trace calls. -/
def TraceEvent.isDealloc : TraceEvent → Bool
  | .deallocate _ => true
  | _ => false

/-- Trace calls made for one operation: one call when a TRACE_PORT is
configured, none otherwise (the if let Some(trace_port) test). -/
def traceEvents (tp : Option Nat) (e : TraceEvent) : List TraceEvent :=
  match tp with
  | some _ => [e]
  | none => []

/-- Linear probe over pools with indices i, i+1, ... for the given count,
from the for loop of allocate in allocator.rs; count is N - i at the call
site. On success the result length is the block size read back from the
satisfying pool after its allocation. -/
def probeFrom (pools : List Pool) : Nat → Nat → Option (Nat × Nat) × List Pool
  | 0, _ => (none, pools)
  | count + 1, i =>
    match (pools.getD i default).allocate with
    | (some ptr, q) => (some (ptr, q.block_size), pools.set i q)
    | (none, _) => probeFrom pools count (i + 1)

/-- Heap-level allocation, from allocate in allocator.rs: trace call first,
then the zero-size short circuit returning the dangling pointer (the layout
alignment) with length 0, then binary search by size and the linear probe
up to N. -/
def Allocator.allocate (tp : Option Nat) (pools : List Pool) (l : Layout) :
    Option (Nat × Nat) × List Pool × List TraceEvent :=
  let evs := traceEvents tp (.allocate l.size)
  if l.size = 0 then (some (l.align, 0), pools, evs)
  else
    let i := binary_search pools (fitsSize l)
    let r := probeFrom pools (pools.length - i) i
    (r.1, r.2, evs)

/-- Heap-level deallocation, from deallocate in allocator.rs: trace call,
zero-size early return, else binary search by address and delegation to that
pool. An out-of-range index is undefined behavior in the source; List.set
leaves the list unchanged there. -/
def Allocator.deallocate (tp : Option Nat) (pools : List Pool) (ptr : Nat) (l : Layout) :
    List Pool × List TraceEvent :=
  let evs := traceEvents tp (.deallocate l.size)
  if l.size = 0 then (pools, evs)
  else
    let i := binary_search pools (fitsAddr ptr)
    (pools.set i ((pools.getD i default).deallocate ptr), evs)

/-- Byte memory, address to byte value. -/
def Mem : Type := Nat → Nat

/-- Semantics of ptr::copy_nonoverlapping(src, dst, count) on the byte
memory. -/
def copy_nonoverlapping (src dst count : Nat) (m : Mem) : Mem :=
  fun a => if dst ≤ a ∧ a < dst + count then m (src + (a - dst)) else m a

/-- Heap-level grow, from grow in allocator.rs: trace call, allocation of the
new block (which makes its own trace call), copy of old_layout.size bytes
from the old block into the new one, then deallocation of the old block. -/
def Allocator.grow (tp : Option Nat) (pools : List Pool) (m : Mem) (ptr : Nat)
    (old_layout new_layout : Layout) :
    Option (Nat × Nat) × List Pool × Mem × List TraceEvent :=
  let evs0 := traceEvents tp (.grow old_layout.size new_layout.size)
  match Allocator.allocate tp pools new_layout with
  | (none, pools1, evs1) => (none, pools1, m, evs0 ++ evs1)
  | (some (new_ptr, len), pools1, evs1) =>
    let m1 := copy_nonoverlapping ptr new_ptr old_layout.size m
    let d := Allocator.deallocate tp pools1 ptr old_layout
    (some (new_ptr, len), d.1, m1, evs0 ++ evs1 ++ d.2)

/-- Heap-level shrink, from shrink in allocator.rs: identical to grow except
that new_layout.size bytes are copied. -/
def Allocator.shrink (tp : Option Nat) (pools : List Pool) (m : Mem) (ptr : Nat)
    (old_layout new_layout : Layout) :
    Option (Nat × Nat) × List Pool × Mem × List TraceEvent :=
  let evs0 := traceEvents tp (.shrink old_layout.size new_layout.size)
  match Allocator.allocate tp pools new_layout with
  | (none, pools1, evs1) => (none, pools1, m, evs0 ++ evs1)
  | (some (new_ptr, len), pools1, evs1) =>
    let m1 := copy_nonoverlapping ptr new_ptr new_layout.size m
    let d := Allocator.deallocate tp pools1 ptr old_layout
    (some (new_ptr, len), d.1, m1, evs0 ++ evs1 ++ d.2)

/-- Iterated Pool.allocate: the addresses of k consecutive allocation
attempts (stopping at the first failure) together with the final pool
state. -/
def allocN : Pool → Nat → List Nat × Pool
  | p, 0 => ([], p)
  | p, k + 1 =>
    match p.allocate with
    | (some a, q) =>
      let r := allocN q k
      (a :: r.1, r.2)
    | (none, q) => ([], q)

/-- One sequential pool operation: an allocation, or the deallocation of the
i-th currently outstanding block. -/
inductive PoolOp where
  | alloc
  | free (i : Nat)

/-- Execution of one operation on a pool paired with the list of outstanding
block addresses. A successful allocation pushes its address; a deallocation
removes the chosen outstanding address and hands it to Pool.deallocate; a
free of a non-outstanding index violates the documented precondition and is
modelled as a no-op. -/
def stepOp (s : Pool × List Nat) (op : PoolOp) : Pool × List Nat :=
  match op with
  | .alloc =>
    match s.1.allocate with
    | (some a, q) => (q, a :: s.2)
    | (none, q) => (q, s.2)
  | .free i =>
    match s.2[i]? with
    | some a => (s.1.deallocate a, s.2.eraseIdx i)
    | none => s

/-- Sequential execution of a list of operations starting from a pool with no
outstanding blocks. -/
def runOps (p : Pool) (ops : List PoolOp) : Pool × List Nat :=
  ops.foldl stepOp (p, [])

/-- Invariant tying a pool state to its outstanding blocks in sequential
execution: the construction parameters are unchanged, the bump cursor has
advanced by exactly one block per block that is free-listed or outstanding,
that total never exceeds the capacity, and remain is the capacity minus the
number of outstanding blocks. -/
def PoolInv (base bs cap : Nat) (s : Pool × List Nat) : Prop :=
  s.1.capacity = cap ∧ s.1.block_size = bs ∧ s.1.edge = base + bs * cap ∧
  s.1.free.length + s.2.length ≤ cap ∧
  s.1.uninit = base + bs * (s.1.free.length + s.2.length) ∧
  s.1.remain = cap - s.2.length

/-- The ten-pool fixture of the allocator.rs tests: block sizes
2,5,8,12,16,23,38,56,72,91, capacity 100 each, laid out contiguously from
address 20; the final edge is 23220 + 91 * 100 = 32320. -/
def fixturePools : List Pool :=
  [Pool.new 20 2 100, Pool.new 220 5 100, Pool.new 720 8 100, Pool.new 1520 12 100,
   Pool.new 2720 16 100, Pool.new 4320 23 100, Pool.new 6620 38 100, Pool.new 10420 56 100,
   Pool.new 16020 72 100, Pool.new 23220 91 100]

lemma bsearchAux_between (pools : List Pool) (fits : Pool → Bool) :
    ∀ fuel left right, left ≤ right →
      left ≤ bsearchAux pools fits fuel left right ∧
        bsearchAux pools fits fuel left right ≤ right := by
  intro fuel
  induction fuel with
  | zero =>
    intro left right h
    exact ⟨Nat.le_refl left, h⟩
  | succ fuel ih =>
    intro left right h
    by_cases hlt : right > left
    · by_cases hf : fits (pools.getD (left + (right - left) / 2) default) = true
      · have := ih left (left + (right - left) / 2) (Nat.le_add_right _ _)
        simp only [bsearchAux, if_pos hlt, if_pos hf]
        omega
      · have := ih (left + (right - left) / 2 + 1) right (by omega)
        simp only [bsearchAux, if_pos hlt, if_neg hf]
        omega
    · simp only [bsearchAux, if_neg hlt]
      omega

lemma bsearchAux_fuel_succ (pools : List Pool) (fits : Pool → Bool) :
    ∀ fuel left right, right - left ≤ fuel →
      bsearchAux pools fits (fuel + 1) left right = bsearchAux pools fits fuel left right := by
  intro fuel
  induction fuel with
  | zero =>
    intro left right h
    have hn : ¬ right > left := by omega
    simp only [bsearchAux, if_neg hn]
  | succ fuel ih =>
    intro left right h
    by_cases hlt : right > left
    · by_cases hf : fits (pools.getD (left + (right - left) / 2) default) = true
      · simp only [bsearchAux, if_pos hlt, if_pos hf]
        exact ih left (left + (right - left) / 2) (by omega)
      · simp only [bsearchAux, if_pos hlt, if_neg hf]
        exact ih (left + (right - left) / 2 + 1) right (by omega)
    · simp only [bsearchAux, if_neg hlt]

lemma bsearchAux_fuel_ge (pools : List Pool) (fits : Pool → Bool) :
    ∀ k fuel left right, right - left ≤ fuel →
      bsearchAux pools fits (fuel + k) left right = bsearchAux pools fits fuel left right := by
  intro k
  induction k with
  | zero =>
    intro fuel left right _
    rfl
  | succ k ih =>
    intro fuel left right h
    have step : bsearchAux pools fits (fuel + k + 1) left right
        = bsearchAux pools fits (fuel + k) left right :=
      bsearchAux_fuel_succ pools fits (fuel + k) left right (by omega)
    have tail := ih fuel left right h
    calc bsearchAux pools fits (fuel + (k + 1)) left right
        = bsearchAux pools fits (fuel + k + 1) left right := by rw [Nat.add_succ]
      _ = bsearchAux pools fits (fuel + k) left right := step
      _ = bsearchAux pools fits fuel left right := tail

lemma bsearchAccesses_lt (pools : List Pool) (fits : Pool → Bool) :
    ∀ fuel left right, right ≤ pools.length →
      ∀ x ∈ bsearchAccesses pools fits fuel left right, x < pools.length := by
  intro fuel
  induction fuel with
  | zero =>
    intro left right _ x hx
    simp [bsearchAccesses] at hx
  | succ fuel ih =>
    intro left right h x hx
    by_cases hlt : right > left
    · simp only [bsearchAccesses, if_pos hlt] at hx
      rcases List.mem_cons.mp hx with hx1 | hx2
      · omega
      · by_cases hf : fits (pools.getD (left + (right - left) / 2) default) = true
        · rw [if_pos hf] at hx2
          exact ih left (left + (right - left) / 2) (by omega) x hx2
        · rw [if_neg hf] at hx2
          exact ih (left + (right - left) / 2 + 1) right h x hx2
    · simp [bsearchAccesses, if_neg hlt] at hx

lemma bsearchAux_spec (pools : List Pool) (fits : Pool → Bool)
    (mono : ∀ j, j < pools.length → ∀ i, i ≤ j →
      fits (pools.getD i default) = true → fits (pools.getD j default) = true) :
    ∀ fuel left right, right - left ≤ fuel → left ≤ right → right ≤ pools.length →
      (∀ j, j < left → fits (pools.getD j default) = false) →
      (∀ j, right ≤ j → j < pools.length → fits (pools.getD j default) = true) →
      (∀ j, j < bsearchAux pools fits fuel left right → fits (pools.getD j default) = false) ∧
      (∀ j, bsearchAux pools fits fuel left right ≤ j → j < pools.length →
        fits (pools.getD j default) = true) := by
  intro fuel
  induction fuel with
  | zero =>
    intro left right hfuel hlr hrN hleft hright
    have heq : left = right := by omega
    subst heq
    exact ⟨hleft, hright⟩
  | succ fuel ih =>
    intro left right hfuel hlr hrN hleft hright
    by_cases hlt : right > left
    · by_cases hf : fits (pools.getD (left + (right - left) / 2) default) = true
      · have hright2 : ∀ j, left + (right - left) / 2 ≤ j → j < pools.length →
            fits (pools.getD j default) = true := by
          intro j hj hjN
          exact mono j hjN (left + (right - left) / 2) hj hf
        have := ih left (left + (right - left) / 2) (by omega) (by omega) (by omega)
          hleft hright2
        simpa only [bsearchAux, if_pos hlt, if_pos hf] using this
      · have hf2 : fits (pools.getD (left + (right - left) / 2) default) = false := by
          revert hf
          cases fits (pools.getD (left + (right - left) / 2) default) <;> simp
        have hleft2 : ∀ j, j < left + (right - left) / 2 + 1 →
            fits (pools.getD j default) = false := by
          intro j hj
          cases hfb : fits (pools.getD j default) with
          | false => rfl
          | true =>
            have := mono (left + (right - left) / 2) (by omega) j (by omega) hfb
            rw [this] at hf2
            exact absurd hf2 (by simp)
        have := ih (left + (right - left) / 2 + 1) right (by omega) (by omega) hrN
          hleft2 hright
        simpa only [bsearchAux, if_pos hlt, if_neg hf] using this
    · have heq : left = right := by omega
      simp only [bsearchAux, if_neg hlt]
      subst heq
      exact ⟨hleft, hright⟩

lemma binary_search_spec (pools : List Pool) (fits : Pool → Bool)
    (mono : ∀ j, j < pools.length → ∀ i, i ≤ j →
      fits (pools.getD i default) = true → fits (pools.getD j default) = true) :
    binary_search pools fits ≤ pools.length ∧
    (∀ j, j < binary_search pools fits → fits (pools.getD j default) = false) ∧
    (∀ j, binary_search pools fits ≤ j → j < pools.length →
      fits (pools.getD j default) = true) := by
  have h1 := bsearchAux_between pools fits pools.length 0 pools.length (Nat.zero_le _)
  have h2 := bsearchAux_spec pools fits mono pools.length 0 pools.length (by omega)
    (Nat.zero_le _) (Nat.le_refl _) (fun j hj => absurd hj (Nat.not_lt_zero j))
    (fun j hj hjN => absurd hjN (by omega))
  exact ⟨h1.2, h2.1, h2.2⟩

lemma binary_search_all_false (pools : List Pool) (fits : Pool → Bool)
    (h : ∀ j, j < pools.length → fits (pools.getD j default) = false) :
    binary_search pools fits = pools.length := by
  have mono : ∀ j, j < pools.length → ∀ i, i ≤ j →
      fits (pools.getD i default) = true → fits (pools.getD j default) = true := by
    intro j hj i hij hf
    rw [h i (lt_of_le_of_lt hij hj)] at hf
    exact absurd hf (by simp)
  rcases binary_search_spec pools fits mono with ⟨hle, _, hup⟩
  by_contra hne
  have hlt : binary_search pools fits < pools.length := lt_of_le_of_ne hle hne
  have := hup (binary_search pools fits) (Nat.le_refl _) hlt
  rw [h _ hlt] at this
  exact absurd this (by simp)

/-- Claim C1: for every pool array sorted ascending by block_size (with
address ranges, hence edges, ascending in the same order), binary_search
with a size probe returns the smallest index i such that the requested size
is at most the block_size at i, and binary_search with an address probe
returns the smallest index i such that the address is below the edge at i;
in either case it returns N exactly when no pool satisfies the probe. -/
theorem binary_search_lower_bound (pools : List Pool) (l : Layout) (a : Nat)
    (hsize : ∀ j, j < pools.length → ∀ i, i ≤ j →
      (pools.getD i default).block_size ≤ (pools.getD j default).block_size)
    (hedge : ∀ j, j < pools.length → ∀ i, i ≤ j →
      (pools.getD i default).edge ≤ (pools.getD j default).edge) :
    (binary_search pools (fitsSize l) ≤ pools.length ∧
      (∀ j, j < binary_search pools (fitsSize l) → fitsSize l (pools.getD j default) = false) ∧
      (∀ j, binary_search pools (fitsSize l) ≤ j → j < pools.length →
        fitsSize l (pools.getD j default) = true)) ∧
    (binary_search pools (fitsAddr a) ≤ pools.length ∧
      (∀ j, j < binary_search pools (fitsAddr a) → fitsAddr a (pools.getD j default) = false) ∧
      (∀ j, binary_search pools (fitsAddr a) ≤ j → j < pools.length →
        fitsAddr a (pools.getD j default) = true)) := by
  constructor
  · apply binary_search_spec
    intro j hj i hij hf
    simp only [fitsSize, decide_eq_true_eq] at hf ⊢
    exact le_trans hf (hsize j hj i hij)
  · apply binary_search_spec
    intro j hj i hij hf
    simp only [fitsAddr, decide_eq_true_eq] at hf ⊢
    exact lt_of_lt_of_le hf (hedge j hj i hij)

/-- Witness for C1 on the concrete ten-pool fixture. -/
theorem binary_search_lower_bound_witness :
    (∀ j, j < fixturePools.length → ∀ i, i ≤ j →
      (fixturePools.getD i default).block_size ≤ (fixturePools.getD j default).block_size) ∧
    (∀ j, j < fixturePools.length → ∀ i, i ≤ j →
      (fixturePools.getD i default).edge ≤ (fixturePools.getD j default).edge) ∧
    ((binary_search fixturePools (fitsSize ⟨17, 4⟩) ≤ fixturePools.length ∧
      (∀ j, j < binary_search fixturePools (fitsSize ⟨17, 4⟩) →
        fitsSize ⟨17, 4⟩ (fixturePools.getD j default) = false) ∧
      (∀ j, binary_search fixturePools (fitsSize ⟨17, 4⟩) ≤ j → j < fixturePools.length →
        fitsSize ⟨17, 4⟩ (fixturePools.getD j default) = true)) ∧
    (binary_search fixturePools (fitsAddr 719) ≤ fixturePools.length ∧
      (∀ j, j < binary_search fixturePools (fitsAddr 719) →
        fitsAddr 719 (fixturePools.getD j default) = false) ∧
      (∀ j, binary_search fixturePools (fitsAddr 719) ≤ j → j < fixturePools.length →
        fitsAddr 719 (fixturePools.getD j default) = true))) :=
  ⟨by decide, by decide,
    binary_search_lower_bound fixturePools ⟨17, 4⟩ 719 (by decide) (by decide)⟩

/-- Claim C9: for every allocator and probe, the binary_search loop only ever
passes indices below N to the unchecked pool access, its result lies in
[0, N], and the loop reaches its fixed point within N iterations (any larger
iteration budget returns the same index), which is the termination bound
given by the strictly shrinking interval. -/
theorem binary_search_safety (pools : List Pool) (fits : Pool → Bool) (k : Nat) :
    ((bsearchAccesses pools fits pools.length 0 pools.length).all
      (fun i => decide (i < pools.length))) = true ∧
    binary_search pools fits ≤ pools.length ∧
    bsearchAux pools fits (pools.length + k) 0 pools.length = binary_search pools fits := by
  refine ⟨?_, ?_, ?_⟩
  · rw [List.all_eq_true]
    intro x hx
    simpa using bsearchAccesses_lt pools fits pools.length 0 pools.length (Nat.le_refl _) x hx
  · exact (bsearchAux_between pools fits pools.length 0 pools.length (Nat.zero_le _)).2
  · exact bsearchAux_fuel_ge pools fits k pools.length 0 pools.length (by omega)

/-- Counterexample for claim C8: in the fixture, binary_search resolves
address 719 to pool index 1, whose block_size is 5 (the size-5 pool), not 8;
the claim says address 719 resolves to the size-8 pool (index 2). -/
theorem fixture_address_719_cex :
    binary_search fixturePools (fitsAddr 719) = 1 ∧
    (fixturePools.getD (binary_search fixturePools (fitsAddr 719)) default).block_size = 5 ∧
    ¬ (fixturePools.getD (binary_search fixturePools (fitsAddr 719)) default).block_size = 8 ∧
    ¬ binary_search fixturePools (fitsAddr 719) = 2 := by
  decide

lemma fixture_edges_le : ∀ j, j < fixturePools.length →
    (fixturePools.getD j default).edge ≤ 32320 := by
  decide

/-- Claim C8 (amended): for the fixture of 10 pools with block sizes
2,5,8,12,16,23,38,56,72,91 and capacity 100 each, binary_search resolves
requested size 1 or 2 to the size-2 pool, size 17 to the size-23 pool, and
size 92 to index N; with the pools laid out contiguously, binary_search
resolves address 220 to the size-5 pool, address 719 to the size-5 pool
(not the size-8 pool: 719 is still below the size-5 pool edge 720), and
every address at or beyond the final edge 32320 to index N. -/
theorem fixture_binary_search_amended :
    binary_search fixturePools (fitsSize ⟨1, 1⟩) = 0 ∧
    binary_search fixturePools (fitsSize ⟨2, 1⟩) = 0 ∧
    (fixturePools.getD 0 default).block_size = 2 ∧
    binary_search fixturePools (fitsSize ⟨17, 1⟩) = 5 ∧
    (fixturePools.getD 5 default).block_size = 23 ∧
    binary_search fixturePools (fitsSize ⟨92, 1⟩) = fixturePools.length ∧
    binary_search fixturePools (fitsAddr 220) = 1 ∧
    (fixturePools.getD 1 default).block_size = 5 ∧
    binary_search fixturePools (fitsAddr 719) = 1 ∧
    (∀ a, 32320 ≤ a → binary_search fixturePools (fitsAddr a) = fixturePools.length) := by
  refine ⟨by decide, by decide, by decide, by decide, by decide, by decide, by decide,
    by decide, by decide, ?_⟩
  intro a ha
  apply binary_search_all_false
  intro j hj
  have hedge := fixture_edges_le j hj
  simp only [fitsAddr, decide_eq_false_iff_not]
  omega

/-- Witness for the amended C8 at the boundary address 32320. -/
theorem fixture_binary_search_amended_witness :
    binary_search fixturePools (fitsAddr 32320) = fixturePools.length :=
  fixture_binary_search_amended.2.2.2.2.2.2.2.2.2 32320 (Nat.le_refl 32320)

lemma Pool.alloc_free_block_size (p : Pool) : (p.alloc_free).2.block_size = p.block_size := by
  cases p with
  | mk c r bs e f u => cases f <;> rfl

lemma Pool.alloc_uninit_block_size (p : Pool) : (p.alloc_uninit).2.block_size = p.block_size := by
  cases p with
  | mk c r bs e f u =>
    by_cases h : u = e
    · simp [Pool.alloc_uninit, h]
    · simp [Pool.alloc_uninit, h]

lemma Pool.allocate_block_size (p : Pool) : (p.allocate).2.block_size = p.block_size := by
  have h1 := Pool.alloc_free_block_size p
  unfold Pool.allocate
  cases hf : p.alloc_free with
  | mk o q =>
    rw [hf] at h1
    cases o with
    | some a => simpa using h1
    | none =>
      simp only [] at h1 ⊢
      rw [Pool.alloc_uninit_block_size q]
      exact h1

lemma probeFrom_none_iff (pools : List Pool) :
    ∀ count i, ((probeFrom pools count i).1 = none ↔
      ∀ j, i ≤ j → j < i + count → ((pools.getD j default).allocate).1 = none) := by
  intro count
  induction count with
  | zero =>
    intro i
    constructor
    · intro _ j h1 h2
      exact absurd h2 (by omega)
    · intro _
      rfl
  | succ count ih =>
    intro i
    cases halloc : (pools.getD i default).allocate with
    | mk o q =>
      cases o with
      | some a =>
        simp only [probeFrom, halloc]
        constructor
        · intro hc
          exact absurd hc (by simp)
        · intro hall
          have := hall i (Nat.le_refl i) (by omega)
          rw [halloc] at this
          exact absurd this (by simp)
      | none =>
        simp only [probeFrom, halloc]
        rw [ih (i + 1)]
        constructor
        · intro hall j h1 h2
          rcases Nat.eq_or_lt_of_le h1 with heq | hlt
          · subst heq
            rw [halloc]
          · exact hall j hlt (by omega)
        · intro hall j h1 h2
          exact hall j (by omega) (by omega)

lemma probeFrom_none_snd (pools : List Pool) :
    ∀ count i, (probeFrom pools count i).1 = none → (probeFrom pools count i).2 = pools := by
  intro count
  induction count with
  | zero =>
    intro i _
    rfl
  | succ count ih =>
    intro i h
    cases halloc : (pools.getD i default).allocate with
    | mk o q =>
      cases o with
      | some a =>
        rw [probeFrom, halloc] at h
        exact absurd h (by simp)
      | none =>
        rw [probeFrom, halloc] at h ⊢
        exact ih (i + 1) h

lemma probeFrom_some (pools : List Pool) :
    ∀ count i ptr len, (probeFrom pools count i).1 = some (ptr, len) →
      ∃ j, i ≤ j ∧ j < i + count ∧
        (∀ j2, i ≤ j2 → j2 < j → ((pools.getD j2 default).allocate).1 = none) ∧
        ((pools.getD j default).allocate).1 = some ptr ∧
        len = (((pools.getD j default).allocate).2).block_size ∧
        (probeFrom pools count i).2 = pools.set j (((pools.getD j default).allocate).2) := by
  intro count
  induction count with
  | zero =>
    intro i ptr len h
    exact absurd h (by simp [probeFrom])
  | succ count ih =>
    intro i ptr len h
    cases halloc : (pools.getD i default).allocate with
    | mk o q =>
      cases o with
      | some a =>
        rw [probeFrom, halloc] at h
        simp only [Option.some.injEq, Prod.mk.injEq] at h
        obtain ⟨ha, hlen⟩ := h
        subst ha
        refine ⟨i, Nat.le_refl i, by omega, ?_, ?_, ?_, ?_⟩
        · intro j2 h1 h2
          exact absurd h2 (by omega)
        · rw [halloc]
        · rw [halloc]
          exact hlen.symm
        · rw [probeFrom, halloc]
      | none =>
        rw [probeFrom, halloc] at h
        obtain ⟨j, h1, h2, h3, h4, h5, h6⟩ := ih (i + 1) ptr len h
        refine ⟨j, by omega, by omega, ?_, h4, h5, ?_⟩
        · intro j2 hj2 hj2lt
          rcases Nat.eq_or_lt_of_le hj2 with heq | hlt
          · subst heq
            rw [halloc]
          · exact h3 j2 hlt hj2lt
        · rw [probeFrom, halloc]
          exact h6

lemma Allocator.allocate_none_frame (tp : Option Nat) (pools : List Pool) (l : Layout)
    (h : (Allocator.allocate tp pools l).1 = none) :
    (Allocator.allocate tp pools l).2.1 = pools := by
  by_cases hz : l.size = 0
  · simp [Allocator.allocate, hz] at h
  · simp only [Allocator.allocate, if_neg hz] at h ⊢
    exact probeFrom_none_snd pools _ _ h

lemma Allocator.allocate_events (tp : Option Nat) (pools : List Pool) (l : Layout) :
    (Allocator.allocate tp pools l).2.2 = traceEvents tp (.allocate l.size) := by
  by_cases hz : l.size = 0 <;> simp [Allocator.allocate, hz]

/-- Claim C2: for every non-zero-size layout, allocate starts the linear
probe at i = binary_search for the layout size and scans pools i..N-1 in
ascending order: it fails exactly when every pool in that range is exhausted
(leaving the pool array unchanged), and on success it returns the pointer of
the first non-exhausted pool in the range together with a usable length equal
to that pool block_size (which may exceed the request), updating only that
pool. -/
theorem allocate_probes_pools (tp : Option Nat) (pools : List Pool) (l : Layout)
    (h : l.size ≠ 0) :
    ((Allocator.allocate tp pools l).1 = none ↔
      ∀ j, j < pools.length → binary_search pools (fitsSize l) ≤ j →
        ((pools.getD j default).allocate).1 = none) ∧
    ((Allocator.allocate tp pools l).1 = none → (Allocator.allocate tp pools l).2.1 = pools) ∧
    (∀ ptr len, (Allocator.allocate tp pools l).1 = some (ptr, len) →
      ∃ j, binary_search pools (fitsSize l) ≤ j ∧ j < pools.length ∧
        (∀ j2, binary_search pools (fitsSize l) ≤ j2 → j2 < j →
          ((pools.getD j2 default).allocate).1 = none) ∧
        ((pools.getD j default).allocate).1 = some ptr ∧
        len = (pools.getD j default).block_size ∧
        (Allocator.allocate tp pools l).2.1 =
          pools.set j (((pools.getD j default).allocate).2)) := by
  have hiN : binary_search pools (fitsSize l) ≤ pools.length :=
    (bsearchAux_between pools (fitsSize l) pools.length 0 pools.length (Nat.zero_le _)).2
  refine ⟨?_, Allocator.allocate_none_frame tp pools l, ?_⟩
  · simp only [Allocator.allocate, if_neg h]
    rw [probeFrom_none_iff pools (pools.length - binary_search pools (fitsSize l))
      (binary_search pools (fitsSize l))]
    constructor
    · intro hall j hjN hij
      exact hall j hij (by omega)
    · intro hall j hij hlt
      exact hall j (by omega) hij
  · intro ptr len hsome
    simp only [Allocator.allocate, if_neg h] at hsome ⊢
    obtain ⟨j, h1, h2, h3, h4, h5, h6⟩ :=
      probeFrom_some pools (pools.length - binary_search pools (fitsSize l))
        (binary_search pools (fitsSize l)) ptr len hsome
    exact ⟨j, h1, by omega, h3, h4, by rw [h5, Pool.allocate_block_size], h6⟩

/-- Witness for C2 on the fixture with request size 17. -/
theorem allocate_probes_pools_witness :
    ((⟨17, 4⟩ : Layout).size ≠ 0) ∧
    (((Allocator.allocate none fixturePools ⟨17, 4⟩).1 = none ↔
      ∀ j, j < fixturePools.length → binary_search fixturePools (fitsSize ⟨17, 4⟩) ≤ j →
        ((fixturePools.getD j default).allocate).1 = none) ∧
    ((Allocator.allocate none fixturePools ⟨17, 4⟩).1 = none →
      (Allocator.allocate none fixturePools ⟨17, 4⟩).2.1 = fixturePools) ∧
    (∀ ptr len, (Allocator.allocate none fixturePools ⟨17, 4⟩).1 = some (ptr, len) →
      ∃ j, binary_search fixturePools (fitsSize ⟨17, 4⟩) ≤ j ∧ j < fixturePools.length ∧
        (∀ j2, binary_search fixturePools (fitsSize ⟨17, 4⟩) ≤ j2 → j2 < j →
          ((fixturePools.getD j2 default).allocate).1 = none) ∧
        ((fixturePools.getD j default).allocate).1 = some ptr ∧
        len = (fixturePools.getD j default).block_size ∧
        (Allocator.allocate none fixturePools ⟨17, 4⟩).2.1 =
          fixturePools.set j (((fixturePools.getD j default).allocate).2))) :=
  ⟨by decide, allocate_probes_pools none fixturePools ⟨17, 4⟩ (by decide)⟩

/-- Claim C5: for every zero-size layout, allocate returns a successful,
non-null, zero-length result and leaves every pool untouched, and deallocate
with a zero-size layout leaves every pool untouched. -/
theorem zero_size_frame (tp : Option Nat) (pools : List Pool) (ptr : Nat) (l : Layout)
    (h : l.size = 0) (ha : 0 < l.align) :
    (Allocator.allocate tp pools l).1 = some (l.align, 0) ∧
    (Allocator.allocate tp pools l).2.1 = pools ∧
    l.align ≠ 0 ∧
    (Allocator.deallocate tp pools ptr l).1 = pools := by
  refine ⟨?_, ?_, by omega, ?_⟩ <;> simp [Allocator.allocate, Allocator.deallocate, h]

/-- Witness for C5 with alignment 4. -/
theorem zero_size_frame_witness :
    ((⟨0, 4⟩ : Layout).size = 0) ∧ (0 < (⟨0, 4⟩ : Layout).align) ∧
    ((Allocator.allocate none fixturePools ⟨0, 4⟩).1 = some (4, 0) ∧
     (Allocator.allocate none fixturePools ⟨0, 4⟩).2.1 = fixturePools ∧
     (⟨0, 4⟩ : Layout).align ≠ 0 ∧
     (Allocator.deallocate none fixturePools 7 ⟨0, 4⟩).1 = fixturePools) :=
  ⟨rfl, by decide, zero_size_frame none fixturePools 7 ⟨0, 4⟩ rfl (by decide)⟩

/-- Counterexample for claim C6: with a configured trace port and a zero-size
layout, allocate does make its trace call before returning (the trace call
precedes the zero-size short circuit in the source), so the trace list of the
zero-size path is nonempty, refuting the claimed return-before-trace order. -/
theorem allocate_zero_size_trace_cex :
    Allocator.allocate (some 0) [] ⟨0, 1⟩ = (some (1, 0), [], [TraceEvent.allocate 0]) ∧
    ¬ (Allocator.allocate (some 0) [] ⟨0, 1⟩).2.2 = [] := by
  decide

/-- Claim C6 (amended): in allocate the optional trace emission is step 1 and
the zero-size short-circuit is step 2: for a layout with size 0 and a
configured trace port, allocate makes the trace call and then returns its
non-null, zero-length result without touching any pool. -/
theorem allocate_trace_then_zero_check (p : Nat) (pools : List Pool) (l : Layout)
    (h : l.size = 0) :
    Allocator.allocate (some p) pools l =
      (some (l.align, 0), pools, [TraceEvent.allocate l.size]) := by
  simp [Allocator.allocate, traceEvents, h]

/-- Witness for the amended C6. -/
theorem allocate_trace_then_zero_check_witness :
    ((⟨0, 8⟩ : Layout).size = 0) ∧
    Allocator.allocate (some 3) fixturePools ⟨0, 8⟩ =
      (some (8, 0), fixturePools, [TraceEvent.allocate 0]) :=
  ⟨rfl, allocate_trace_then_zero_check 3 fixturePools ⟨0, 8⟩ rfl⟩

lemma copy_nonoverlapping_in (src dst count : Nat) (m : Mem) (a : Nat) (h : a < count) :
    copy_nonoverlapping src dst count m (dst + a) = m (src + a) := by
  unfold copy_nonoverlapping
  rw [if_pos ⟨Nat.le_add_right dst a, by omega⟩]
  congr 1
  omega

lemma copy_nonoverlapping_out (src dst count : Nat) (m : Mem) (a : Nat)
    (h : a < dst ∨ dst + count ≤ a) :
    copy_nonoverlapping src dst count m a = m a := by
  unfold copy_nonoverlapping
  rw [if_neg]
  rintro ⟨h1, h2⟩
  omega

/-- Claim C4: for every grow and shrink call, if the allocation of the new
block fails then the operation returns failure with the old block untouched
and still valid: the memory is not written (no copy), the pool array is
unchanged, and no deallocation trace call is made, so the deallocation of the
old pointer is not invoked. -/
theorem grow_shrink_alloc_failure_frame (tp : Option Nat) (pools : List Pool) (m : Mem)
    (ptr : Nat) (oldL newL : Layout)
    (h : (Allocator.allocate tp pools newL).1 = none) :
    (Allocator.grow tp pools m ptr oldL newL).1 = none ∧
    (Allocator.grow tp pools m ptr oldL newL).2.1 = pools ∧
    (Allocator.grow tp pools m ptr oldL newL).2.2.1 = m ∧
    ((Allocator.grow tp pools m ptr oldL newL).2.2.2.all fun e => ! e.isDealloc) = true ∧
    (Allocator.shrink tp pools m ptr oldL newL).1 = none ∧
    (Allocator.shrink tp pools m ptr oldL newL).2.1 = pools ∧
    (Allocator.shrink tp pools m ptr oldL newL).2.2.1 = m ∧
    ((Allocator.shrink tp pools m ptr oldL newL).2.2.2.all fun e => ! e.isDealloc) = true := by
  have hframe := Allocator.allocate_none_frame tp pools newL h
  have hevents := Allocator.allocate_events tp pools newL
  cases halloc : Allocator.allocate tp pools newL with
  | mk o rest =>
    cases rest with
    | mk pools1 evs1 =>
      rw [halloc] at h hframe hevents
      simp only [] at h hframe hevents
      subst h
      subst hframe
      subst hevents
      simp only [Allocator.grow, Allocator.shrink, halloc, List.all_append,
        Bool.and_eq_true, true_and, and_true]
      cases tp <;> simp [traceEvents, TraceEvent.isDealloc]

/-- Witness for C4 on an empty pool array, where every allocation fails. -/
theorem grow_shrink_alloc_failure_frame_witness :
    ((Allocator.allocate (some 0) [] ⟨1, 1⟩).1 = none) ∧
    ((Allocator.grow (some 0) [] (fun a => a) 5 ⟨1, 1⟩ ⟨1, 1⟩).1 = none ∧
    (Allocator.grow (some 0) [] (fun a => a) 5 ⟨1, 1⟩ ⟨1, 1⟩).2.1 = [] ∧
    (Allocator.grow (some 0) [] (fun a => a) 5 ⟨1, 1⟩ ⟨1, 1⟩).2.2.1 = (fun a => a) ∧
    ((Allocator.grow (some 0) [] (fun a => a) 5 ⟨1, 1⟩ ⟨1, 1⟩).2.2.2.all
      fun e => ! e.isDealloc) = true ∧
    (Allocator.shrink (some 0) [] (fun a => a) 5 ⟨1, 1⟩ ⟨1, 1⟩).1 = none ∧
    (Allocator.shrink (some 0) [] (fun a => a) 5 ⟨1, 1⟩ ⟨1, 1⟩).2.1 = [] ∧
    (Allocator.shrink (some 0) [] (fun a => a) 5 ⟨1, 1⟩ ⟨1, 1⟩).2.2.1 = (fun a => a) ∧
    ((Allocator.shrink (some 0) [] (fun a => a) 5 ⟨1, 1⟩ ⟨1, 1⟩).2.2.2.all
      fun e => ! e.isDealloc) = true) :=
  ⟨by decide, grow_shrink_alloc_failure_frame (some 0) [] (fun a => a) 5 ⟨1, 1⟩ ⟨1, 1⟩ (by decide)⟩

/-- Claim C7: when the allocation of the new block succeeds, grow copies
exactly old_layout.size bytes and shrink copies exactly new_layout.size bytes
from the old block into the new block (bytes outside the copied destination
range are untouched); neither resizes in place: both return the fresh
pointer of the new allocation and then deallocate the old pointer, so the
final pool array is the deallocation applied after the new allocation. -/
theorem grow_shrink_copy_semantics (tp : Option Nat) (pools pools1 : List Pool)
    (m : Mem) (ptr nptr len : Nat) (oldL newL : Layout) (evs1 : List TraceEvent)
    (h : Allocator.allocate tp pools newL = (some (nptr, len), pools1, evs1)) :
    (Allocator.grow tp pools m ptr oldL newL).1 = some (nptr, len) ∧
    (∀ a, a < oldL.size →
      (Allocator.grow tp pools m ptr oldL newL).2.2.1 (nptr + a) = m (ptr + a)) ∧
    (∀ a, a < nptr ∨ nptr + oldL.size ≤ a →
      (Allocator.grow tp pools m ptr oldL newL).2.2.1 a = m a) ∧
    (Allocator.grow tp pools m ptr oldL newL).2.1 =
      (Allocator.deallocate tp pools1 ptr oldL).1 ∧
    (Allocator.shrink tp pools m ptr oldL newL).1 = some (nptr, len) ∧
    (∀ a, a < newL.size →
      (Allocator.shrink tp pools m ptr oldL newL).2.2.1 (nptr + a) = m (ptr + a)) ∧
    (∀ a, a < nptr ∨ nptr + newL.size ≤ a →
      (Allocator.shrink tp pools m ptr oldL newL).2.2.1 a = m a) ∧
    (Allocator.shrink tp pools m ptr oldL newL).2.1 =
      (Allocator.deallocate tp pools1 ptr oldL).1 := by
  refine ⟨?_, ?_, ?_, ?_, ?_, ?_, ?_, ?_⟩
  · simp only [Allocator.grow, h]
  · intro a ha
    simp only [Allocator.grow, h]
    exact copy_nonoverlapping_in ptr nptr oldL.size m a ha
  · intro a ha
    simp only [Allocator.grow, h]
    exact copy_nonoverlapping_out ptr nptr oldL.size m a ha
  · simp only [Allocator.grow, h]
  · simp only [Allocator.shrink, h]
  · intro a ha
    simp only [Allocator.shrink, h]
    exact copy_nonoverlapping_in ptr nptr newL.size m a ha
  · intro a ha
    simp only [Allocator.shrink, h]
    exact copy_nonoverlapping_out ptr nptr newL.size m a ha
  · simp only [Allocator.shrink, h]

/-- Witness for C7 on a one-pool heap whose allocation succeeds at address
100 with block size 4. -/
theorem grow_shrink_copy_semantics_witness :
    (Allocator.allocate none [Pool.new 100 4 1] ⟨3, 1⟩ =
      (some (100, 4), [⟨1, 0, 4, 104, [], 104⟩], [])) ∧
    ((Allocator.grow none [Pool.new 100 4 1] (fun a => a) 5 ⟨3, 1⟩ ⟨3, 1⟩).1 = some (100, 4) ∧
    (∀ a, a < (⟨3, 1⟩ : Layout).size →
      (Allocator.grow none [Pool.new 100 4 1] (fun a => a) 5 ⟨3, 1⟩ ⟨3, 1⟩).2.2.1 (100 + a) =
        (fun a => a) (5 + a)) ∧
    (∀ a, a < 100 ∨ 100 + (⟨3, 1⟩ : Layout).size ≤ a →
      (Allocator.grow none [Pool.new 100 4 1] (fun a => a) 5 ⟨3, 1⟩ ⟨3, 1⟩).2.2.1 a =
        (fun a => a) a) ∧
    (Allocator.grow none [Pool.new 100 4 1] (fun a => a) 5 ⟨3, 1⟩ ⟨3, 1⟩).2.1 =
      (Allocator.deallocate none [⟨1, 0, 4, 104, [], 104⟩] 5 ⟨3, 1⟩).1 ∧
    (Allocator.shrink none [Pool.new 100 4 1] (fun a => a) 5 ⟨3, 1⟩ ⟨3, 1⟩).1 = some (100, 4) ∧
    (∀ a, a < (⟨3, 1⟩ : Layout).size →
      (Allocator.shrink none [Pool.new 100 4 1] (fun a => a) 5 ⟨3, 1⟩ ⟨3, 1⟩).2.2.1 (100 + a) =
        (fun a => a) (5 + a)) ∧
    (∀ a, a < 100 ∨ 100 + (⟨3, 1⟩ : Layout).size ≤ a →
      (Allocator.shrink none [Pool.new 100 4 1] (fun a => a) 5 ⟨3, 1⟩ ⟨3, 1⟩).2.2.1 a =
        (fun a => a) a) ∧
    (Allocator.shrink none [Pool.new 100 4 1] (fun a => a) 5 ⟨3, 1⟩ ⟨3, 1⟩).2.1 =
      (Allocator.deallocate none [⟨1, 0, 4, 104, [], 104⟩] 5 ⟨3, 1⟩).1) :=
  ⟨by decide,
    grow_shrink_copy_semantics none [Pool.new 100 4 1] [⟨1, 0, 4, 104, [], 104⟩]
      (fun a => a) 5 100 4 ⟨3, 1⟩ ⟨3, 1⟩ [] (by decide)⟩

lemma Pool.allocate_exhausted (q : Pool) (hfree : q.free = []) (hu : q.uninit = q.edge) :
    (q.allocate).1 = none := by
  cases q with
  | mk c r bs e f u =>
    simp only [] at hfree hu
    subst hfree
    subst hu
    simp [Pool.allocate, Pool.alloc_free, Pool.alloc_uninit]

lemma Pool.dealloc_then_alloc (q : Pool) (x : Nat) :
    ((q.deallocate x).allocate).1 = some x := by
  cases q with
  | mk c r bs e f u => rfl

lemma allocN_bump (a bs cap : Nat) (hbs : 0 < bs) :
    ∀ k t r, k + t ≤ cap →
      (allocN ⟨cap, r, bs, a + bs * cap, [], a + bs * t⟩ k).1 =
          (List.range k).map (fun j => a + bs * (t + j)) ∧
      (allocN ⟨cap, r, bs, a + bs * cap, [], a + bs * t⟩ k).2.free = [] ∧
      (allocN ⟨cap, r, bs, a + bs * cap, [], a + bs * t⟩ k).2.uninit = a + bs * (t + k) ∧
      (allocN ⟨cap, r, bs, a + bs * cap, [], a + bs * t⟩ k).2.edge = a + bs * cap ∧
      (allocN ⟨cap, r, bs, a + bs * cap, [], a + bs * t⟩ k).2.block_size = bs := by
  intro k
  induction k with
  | zero =>
    intro t r _
    refine ⟨by simp [allocN], by simp [allocN], by simp [allocN], by simp [allocN],
      by simp [allocN]⟩
  | succ k ih =>
    intro t r h
    have hne : ¬ a + bs * t = a + bs * cap := by
      have hmul : bs * t < bs * cap := by
        have htc : t < cap := by omega
        exact Nat.mul_lt_mul_of_le_of_lt (Nat.le_refl bs) htc hbs
      omega
    have halloc : (⟨cap, r, bs, a + bs * cap, [], a + bs * t⟩ : Pool).allocate =
        (some (a + bs * t), ⟨cap, usub1 r, bs, a + bs * cap, [], a + bs * t + bs⟩) := by
      simp [Pool.allocate, Pool.alloc_free, Pool.alloc_uninit, hne]
    have harith : a + bs * t + bs = a + bs * (t + 1) := by ring
    have hstep : allocN ⟨cap, r, bs, a + bs * cap, [], a + bs * t⟩ (k + 1) =
        ((a + bs * t) ::
          (allocN ⟨cap, usub1 r, bs, a + bs * cap, [], a + bs * (t + 1)⟩ k).1,
         (allocN ⟨cap, usub1 r, bs, a + bs * cap, [], a + bs * (t + 1)⟩ k).2) := by
      rw [allocN, halloc, harith]
    obtain ⟨ih1, ih2, ih3, ih4, ih5⟩ := ih (t + 1) (usub1 r) (by omega)
    rw [hstep]
    have ht1 : t + 1 + k = t + (k + 1) := by omega
    refine ⟨?_, ih2, by rw [ih3, ht1], ih4, ih5⟩
    rw [ih1, List.range_succ_eq_map, List.map_cons, List.map_map]
    simp only [List.cons.injEq]
    refine ⟨by simp, ?_⟩
    apply List.map_congr_left
    intro j _
    simp only [Function.comp_apply, Nat.succ_eq_add_one]
    ring

/-- Claim C3: in a single execution context, allocating k of at most capacity
blocks from a freshly constructed pool yields k distinct addresses whose
blocks lie inside [base, edge) and are pairwise non-overlapping; once all
capacity blocks are allocated the next Pool.allocate fails; and after freeing
exactly one block the next allocate succeeds and returns exactly the freed
address (LIFO reuse). -/
theorem pool_alloc_round_trip (a bs cap k : Nat) (hbs : 0 < bs) (hk : k ≤ cap) :
    (allocN (Pool.new a bs cap) k).1.length = k ∧
    (allocN (Pool.new a bs cap) k).1.Nodup ∧
    (∀ x ∈ (allocN (Pool.new a bs cap) k).1, a ≤ x ∧ x + bs ≤ a + bs * cap) ∧
    (allocN (Pool.new a bs cap) k).1.Pairwise (fun x y => x + bs ≤ y ∨ y + bs ≤ x) ∧
    (k = cap → (((allocN (Pool.new a bs cap) k).2).allocate).1 = none) ∧
    (∀ x ∈ (allocN (Pool.new a bs cap) k).1,
      ((((allocN (Pool.new a bs cap) k).2).deallocate x).allocate).1 = some x) := by
  have h0 : (Pool.new a bs cap : Pool) = ⟨cap, cap, bs, a + bs * cap, [], a + bs * 0⟩ := by
    simp [Pool.new]
  obtain ⟨h1, h2, h3, h4, h5⟩ := allocN_bump a bs cap hbs k 0 cap (by omega)
  rw [h0]
  refine ⟨?_, ?_, ?_, ?_, ?_, ?_⟩
  · rw [h1]
    simp
  · rw [h1]
    refine List.Nodup.map ?_ (List.nodup_range k)
    intro x y hxy
    simp only [Nat.zero_add] at hxy
    have hc := Nat.add_left_cancel hxy
    exact Nat.eq_of_mul_eq_mul_left hbs hc
  · rw [h1]
    intro x hx
    obtain ⟨j, hj, rfl⟩ := List.mem_map.mp hx
    have hjk : j < k := List.mem_range.mp hj
    constructor
    · exact Nat.le_add_right a (bs * (0 + j))
    · have hle : bs * (j + 1) ≤ bs * cap := Nat.mul_le_mul (Nat.le_refl bs) (by omega)
      have hms : bs * (j + 1) = bs * j + bs := Nat.mul_succ bs j
      simp only [Nat.zero_add]
      omega
  · rw [h1, List.pairwise_map]
    refine List.Pairwise.imp ?_ (List.pairwise_lt_range k)
    intro i j hij
    left
    have hle : bs * (i + 1) ≤ bs * j := Nat.mul_le_mul (Nat.le_refl bs) (by omega)
    have hms : bs * (i + 1) = bs * i + bs := Nat.mul_succ bs i
    simp only [Nat.zero_add]
    omega
  · intro hkc
    subst hkc
    refine Pool.allocate_exhausted _ h2 ?_
    rw [h3, h4]
    simp
  · intro x _
    exact Pool.dealloc_then_alloc _ x

/-- Witness for C3 with base 100, block size 4, capacity 2, allocating both
blocks. -/
theorem pool_alloc_round_trip_witness :
    0 < 4 ∧ 2 ≤ 2 ∧
    ((allocN (Pool.new 100 4 2) 2).1.length = 2 ∧
    (allocN (Pool.new 100 4 2) 2).1.Nodup ∧
    (∀ x ∈ (allocN (Pool.new 100 4 2) 2).1, 100 ≤ x ∧ x + 4 ≤ 100 + 4 * 2) ∧
    (allocN (Pool.new 100 4 2) 2).1.Pairwise (fun x y => x + 4 ≤ y ∨ y + 4 ≤ x) ∧
    (2 = 2 → (((allocN (Pool.new 100 4 2) 2).2).allocate).1 = none) ∧
    (∀ x ∈ (allocN (Pool.new 100 4 2) 2).1,
      ((((allocN (Pool.new 100 4 2) 2).2).deallocate x).allocate).1 = some x)) :=
  ⟨by decide, by decide, pool_alloc_round_trip 100 4 2 2 (by decide) (by decide)⟩

lemma usub1_pred (n : Nat) (h1 : 0 < n) (h2 : n < USIZE) : usub1 n = n - 1 := by
  have hv : USIZE = 4294967296 := by norm_num [USIZE]
  rw [hv] at h2
  rw [usub1, hv]
  omega

lemma uadd1_succ (n : Nat) (h : n + 1 < USIZE) : uadd1 n = n + 1 := by
  have hv : USIZE = 4294967296 := by norm_num [USIZE]
  rw [hv] at h
  rw [uadd1, hv]
  omega

lemma stepOp_inv (base bs cap : Nat) (hbs : 0 < bs) (hcap : cap < USIZE)
    (s : Pool × List Nat) (op : PoolOp) (h : PoolInv base bs cap s) :
    PoolInv base bs cap (stepOp s op) := by
  obtain ⟨p, out⟩ := s
  obtain ⟨hc, hb, he, ht, hu, hr⟩ := h
  cases p with
  | mk c r pbs e f u =>
    simp only [] at hc hb he ht hu hr
    have hc2 : cap = c := hc.symm
    subst hc2
    have hb2 : bs = pbs := hb.symm
    subst hb2
    subst he
    subst hu
    subst hr
    cases op with
    | alloc =>
      cases f with
      | cons x rest =>
        simp only [stepOp, Pool.allocate, Pool.alloc_free]
        have holt : out.length < cap := by
          simp only [List.length_cons] at ht
          omega
        have hrem : usub1 (cap - out.length) = cap - (out.length + 1) := by
          rw [usub1_pred (cap - out.length) (by omega) (by omega)]
          omega
        refine ⟨rfl, rfl, rfl, ?_, ?_, ?_⟩
        · simp only [List.length_cons] at ht ⊢
          omega
        · simp only [List.length_cons]
          have harg : rest.length + 1 + out.length = rest.length + (out.length + 1) := by omega
          rw [harg]
        · simp only [List.length_cons]
          exact hrem
      | nil =>
        simp only [stepOp, Pool.allocate, Pool.alloc_free, Pool.alloc_uninit,
          List.length_nil, Nat.zero_add] at ht ⊢
        by_cases hue : base + bs * out.length = base + bs * cap
        · rw [if_pos hue]
          exact ⟨rfl, rfl, rfl, by simpa using ht, by simp, rfl⟩
        · rw [if_neg hue]
          have holt : out.length < cap := by
            rcases Nat.lt_or_ge out.length cap with hlt | hge
            · exact hlt
            · exfalso
              have : out.length = cap := by omega
              rw [this] at hue
              exact hue rfl
          refine ⟨rfl, rfl, rfl, ?_, ?_, ?_⟩
          · simp only [List.length_cons, List.length_nil, Nat.zero_add]
            omega
          · simp only [List.length_cons, List.length_nil, Nat.zero_add]
            ring
          · simp only [List.length_cons]
            rw [usub1_pred (cap - out.length) (by omega) (by omega)]
            omega
    | free i =>
      cases hi : out[i]? with
      | none =>
        simp only [stepOp, hi]
        exact ⟨rfl, rfl, rfl, ht, rfl, rfl⟩
      | some x =>
        have hilt : i < out.length := by
          by_contra hge
          push_neg at hge
          rw [List.getElem?_eq_none hge] at hi
          cases hi
        have hlen : (out.eraseIdx i).length = out.length - 1 :=
          List.length_eraseIdx_of_lt hilt
        simp only [stepOp, hi, Pool.deallocate]
        refine ⟨rfl, rfl, rfl, ?_, ?_, ?_⟩
        · simp only [List.length_cons, hlen]
          omega
        · simp only [List.length_cons, hlen]
          have harg : f.length + 1 + (out.length - 1) = f.length + out.length := by omega
          rw [harg]
        · rw [hlen, uadd1_succ (cap - out.length) (by omega)]
          simp only []
          omega

lemma runOps_inv (base bs cap : Nat) (hbs : 0 < bs) (hcap : cap < USIZE) :
    ∀ (ops : List PoolOp) (s : Pool × List Nat), PoolInv base bs cap s →
      PoolInv base bs cap (ops.foldl stepOp s)
  | [], _, h => h
  | op :: ops, s, h =>
    runOps_inv base bs cap hbs hcap ops (stepOp s op) (stepOp_inv base bs cap hbs hcap s op h)

/-- Claim C10: in single-context sequential execution starting from a freshly
constructed pool, after every completed sequence of Pool operations the
remain counter equals capacity minus the number of outstanding blocks
(successful allocations minus deallocations), hence remain is between 0 and
capacity, and statistics returns exactly (block_size, capacity, remain) with
block_size and capacity equal to their construction-time values. -/
theorem pool_remain_invariant (base bs cap : Nat) (ops : List PoolOp)
    (hbs : 0 < bs) (hcap : cap < USIZE) :
    (runOps (Pool.new base bs cap) ops).2.length ≤ cap ∧
    (runOps (Pool.new base bs cap) ops).1.remain =
      cap - (runOps (Pool.new base bs cap) ops).2.length ∧
    (runOps (Pool.new base bs cap) ops).1.remain ≤ cap ∧
    (runOps (Pool.new base bs cap) ops).1.statistics =
      ⟨bs, cap, cap - (runOps (Pool.new base bs cap) ops).2.length⟩ ∧
    (runOps (Pool.new base bs cap) ops).1.block_size = bs ∧
    (runOps (Pool.new base bs cap) ops).1.capacity = cap := by
  have hinit : PoolInv base bs cap (Pool.new base bs cap, []) := by
    refine ⟨rfl, rfl, rfl, by simp [Pool.new], by simp [Pool.new], by simp [Pool.new]⟩
  obtain ⟨hc, hb, he, ht, hu, hr⟩ := runOps_inv base bs cap hbs hcap ops _ hinit
  simp only [runOps]
  refine ⟨by omega, hr, ?_, ?_, hb, hc⟩
  · rw [hr]
    omega
  · simp only [Pool.statistics, Statistics.mk.injEq]
    exact ⟨hb, hc, hr⟩

/-- Witness for C10 with block size 4, capacity 2, and the operation sequence
alloc, alloc, free 0, alloc. -/
theorem pool_remain_invariant_witness :
    0 < 4 ∧ 2 < USIZE ∧
    ((runOps (Pool.new 0 4 2) [.alloc, .alloc, .free 0, .alloc]).2.length ≤ 2 ∧
    (runOps (Pool.new 0 4 2) [.alloc, .alloc, .free 0, .alloc]).1.remain =
      2 - (runOps (Pool.new 0 4 2) [.alloc, .alloc, .free 0, .alloc]).2.length ∧
    (runOps (Pool.new 0 4 2) [.alloc, .alloc, .free 0, .alloc]).1.remain ≤ 2 ∧
    (runOps (Pool.new 0 4 2) [.alloc, .alloc, .free 0, .alloc]).1.statistics =
      ⟨4, 2, 2 - (runOps (Pool.new 0 4 2) [.alloc, .alloc, .free 0, .alloc]).2.length⟩ ∧
    (runOps (Pool.new 0 4 2) [.alloc, .alloc, .free 0, .alloc]).1.block_size = 4 ∧
    (runOps (Pool.new 0 4 2) [.alloc, .alloc, .free 0, .alloc]).1.capacity = 2) :=
  ⟨by decide, by norm_num [USIZE],
    pool_remain_invariant 0 4 2 [.alloc, .alloc, .free 0, .alloc] (by decide)
      (by norm_num [USIZE])⟩
